import Mathlib

/-!
Verification development for the orb subsystem of the portfolio site.

The definitions below are shallow embeddings of the JavaScript sources:

  * `Y`, `shDeform`, `randomCoeffs`  — src/js/harmonics.js
  * `Geo`, `morphVertex`, `morphGeo` — orbs.js (src/unnamed/part_001, morphGeo)
  * `WBlob`, `updateWaveRipple`, `startWave`, `simWave`
                                     — orbs.js wave-ripple state machine
  * `Blob`, `NavState`, `onPointerMove`, `runPointer`
                                     — interaction.js (src/js/nav.js, onPointerMove)
  * `navMouseEnter`                  — nav.js side-navigation mouseenter handler
  * `jsToUpperCase`, `createOrbLabelText`, `ProjectData`
                                     — orbs.js createOrbs label construction

JavaScript numbers are modelled by exact reals (for the trigonometric
morphing pipeline) and by exact rationals (for the purely additive /
comparative wave and interaction state), which is faithful for the
properties considered here: none of them depend on rounding.
-/

namespace Portfolio

/- ═══════════ harmonics.js ═══════════ -/

/-- Array of real spherical-harmonic basis functions for l = 0 … 3,
transcribed entry by entry from `Y` in src/js/harmonics.js
(functions ignoring `p` in the source ignore it here as well). -/
noncomputable def Y : List (ℝ → ℝ → ℝ) :=
  [ fun _ _ => 0.2820947917,
    fun t p => 0.4886025119 * Real.sin t * Real.sin p,
    fun t _ => 0.4886025119 * Real.cos t,
    fun t p => 0.4886025119 * Real.sin t * Real.cos p,
    fun t p => 0.5462742153 * Real.sin t ^ 2 * Real.sin (2 * p),
    fun t p => 0.5462742153 * (Real.sin t * Real.cos t) * Real.sin p,
    fun t _ => 0.3153915653 * (3 * Real.cos t ^ 2 - 1),
    fun t p => 0.5462742153 * (Real.sin t * Real.cos t) * Real.cos p,
    fun t p => 0.5462742153 * Real.sin t ^ 2 * Real.cos (2 * p),
    fun t p => 0.4570457995 * Real.sin t * (5 * Real.cos t ^ 2 - 1) * Real.sin p,
    fun t _ => 0.3731763326 * (5 * Real.cos t ^ 3 - 3 * Real.cos t),
    fun t p => 0.4570457995 * Real.sin t * (5 * Real.cos t ^ 2 - 1) * Real.cos p ]

/-- `const N_COEFFS = Y.length` from src/js/harmonics.js. -/
noncomputable def N_COEFFS : ℕ := Y.length

/-- Evaluate radial displacement from SH coefficients: the accumulation
loop `for (i = 0; i < N_COEFFS; i++) r += coeffs[i] * Y[i](theta, phi)`
of `shDeform` in src/js/harmonics.js.  The coefficient array is modelled
as a function `ℕ → ℝ` (callers always pass arrays of length 12, so every
access in the loop is in range). -/
noncomputable def shDeform (theta phi : ℝ) (coeffs : ℕ → ℝ) : ℝ :=
  (List.range N_COEFFS).foldl
    (fun r i => r + coeffs i * (Y.getD i fun _ _ => 0) theta phi) 0

/-- Generate a 12-coefficient set: `randomCoeffs(base, amp)` from
src/js/harmonics.js.  The successive `Math.random()` draws are supplied
as the sequence `rand` (draw number `k` is the `k`-th call made by the
loop body, i.e. the one used for coefficient `i = k + 1`). -/
def randomCoeffs (base amp : ℝ) (rand : ℕ → ℝ) : Fin 12 → ℝ :=
  fun i =>
    if i.val = 0 then base
    else if i.val < 4 then (rand (i.val - 1) - 0.5) * amp * 0.45
    else if i.val < 9 then (rand (i.val - 1) - 0.5) * amp * 0.60
    else (rand (i.val - 1) - 0.5) * amp * 0.35

/- ═══════════ orbs.js — morphGeo ═══════════ -/

/-- Geometry state touched by `morphGeo`: the position buffer (one
(x, y, z) triple per vertex, `pos.count` = list length) together with its
`needsUpdate` flag. -/
structure Geo where
  positions : List (ℝ × ℝ × ℝ)
  needsUpdate : Bool

/-- Loop body of `morphGeo` for vertex `i` (orbs.js): reads
`theta = unitAngles[i*2]`, `phi = unitAngles[i*2+1]`, computes
`r = baseR + shDeform(theta, phi, coeffs)` and produces the written triple
`(r·sin θ·cos φ, r·cos θ, r·sin θ·sin φ)` passed to `pos.setXYZ`. -/
noncomputable def morphVertex (ua : ℕ → ℝ) (coeffs : ℕ → ℝ) (baseR : ℝ)
    (i : ℕ) : ℝ × ℝ × ℝ :=
  let theta := ua (i * 2)
  let phi := ua (i * 2 + 1)
  let r := baseR + shDeform theta phi coeffs
  (r * Real.sin theta * Real.cos phi,
   r * Real.cos theta,
   r * Real.sin theta * Real.sin phi)

/-- `morphGeo(geo, unitAngles, coeffs, baseR)` from orbs.js: overwrites
every entry of the position buffer with the deformed vertex and sets
`pos.needsUpdate = true`.  The cached unit-angle array is modelled as a
function `ℕ → ℝ` (the caller always passes an array of length
`2 * pos.count`). -/
noncomputable def morphGeo (geo : Geo) (ua : ℕ → ℝ) (coeffs : ℕ → ℝ)
    (baseR : ℝ) : Geo :=
  { positions := (List.range geo.positions.length).map (morphVertex ua coeffs baseR),
    needsUpdate := true }

/-- Coefficient array that is all-zero except index 0, which holds
`baseR` — the input of the morphing round-trip scenario. -/
def sphereCoeffs (baseR : ℝ) : ℕ → ℝ := fun i => if i = 0 then baseR else 0

/-- Concrete one-vertex geometry used to instantiate the morph theorems. -/
def geo1 : Geo := { positions := [(0, 0, 0)], needsUpdate := false }

/-- Concrete unit-angle cache with every angle 0 (so θ = 0, φ = 0). -/
def ua0 : ℕ → ℝ := fun _ => 0

/- ═══════════ orbs.js — wave ripple state machine ═══════════ -/

/-- Wave-ripple-relevant state of one blob: the `hovered`, `waveActive`,
`waveElapsed`, `hitLocal` fields and the `uWaveTime` / `uHitPoint` shader
uniforms of the blob record built in `createOrbs` (orbs.js).  Time deltas
are only ever accumulated and compared against the 2.5 s threshold, so
they are modelled by exact rationals. -/
structure WBlob where
  hovered : Bool
  waveActive : Bool
  waveElapsed : ℚ
  uWaveTime : ℚ
  hitLocal : Option (ℚ × ℚ × ℚ)
  uHitPoint : ℚ × ℚ × ℚ
deriving DecidableEq

/-- `updateWaveRipple(b, dt)` from orbs.js: early-returns when the wave is
inactive; otherwise accumulates `waveElapsed`, mirrors it into
`uWaveTime`, refreshes `uHitPoint` from `hitLocal` when present, and
deactivates the wave (resetting `uWaveTime` to −10) once the blob is no
longer hovered and `waveElapsed` exceeds 2.5. -/
def updateWaveRipple (b : WBlob) (dt : ℚ) : WBlob :=
  if b.waveActive = false then b
  else
    let b1 := { b with waveElapsed := b.waveElapsed + dt }
    let b2 := { b1 with uWaveTime := b1.waveElapsed }
    let b3 :=
      match b2.hitLocal with
      | some p => { b2 with uHitPoint := p }
      | none => b2
    if b3.hovered = false ∧ b3.waveElapsed > 2.5 then
      { b3 with waveActive := false, uWaveTime := -10 }
    else b3

/-- `startWave(b)` from orbs.js: activates the wave, resets the elapsed
time, and copies the current hit point into the shader uniform. -/
def startWave (b : WBlob) : WBlob :=
  let b1 := { b with waveActive := true, waveElapsed := 0 }
  match b1.hitLocal with
  | some p => { b1 with uHitPoint := p }
  | none => b1

/-- Frame loop driving the wave ripple: each tick first records the
externally-set hover flag for that frame and then runs
`updateWaveRipple` with that frame's `dt`, exactly as the per-frame
animator ticks hovered blobs. -/
def simWave (b : WBlob) (steps : List (ℚ × Bool)) : WBlob :=
  steps.foldl (fun b s => updateWaveRipple { b with hovered := s.2 } s.1) b

/-- Blob state used at the hover-start of the wave scenario (the blob
record's initial interaction fields from `createOrbs`, with `hovered`
already raised by the hover transition). -/
def wb0 : WBlob :=
  { hovered := true, waveActive := false, waveElapsed := 0,
    uWaveTime := -10, hitLocal := none, uHitPoint := (0, 0, 0) }

/- ═══════════ interaction.js (src/js/nav.js) — pointer resolver ═══════════ -/

/-- Interaction-relevant state of one blob: the `hovered` flag and the
local-space raycast hit point `hitLocal` (`null` when absent).  The hit
point's numeric type is irrelevant to the resolver's control flow and is
modelled by exact rationals. -/
structure Blob where
  hovered : Bool
  hitLocal : Option (ℚ × ℚ × ℚ)
deriving DecidableEq

/-- State read and written by `onPointerMove` (interaction.js): the blob
collection, the module-level `hoveredBlob` reference (modelled by the
index of the referenced blob), and the panel collaborator's
`panelState.panelOpen` / `panelState.focusedIdx`.  DOM side effects
(label text and position, cursor style, nav-item highlighting) are not
modelled; the hover sound cue is returned as a separate flag. -/
structure NavState where
  blobs : List Blob
  hoveredBlob : Option ℕ
  panelOpen : Bool
  focusedIdx : ℕ
deriving DecidableEq

/-- One pointer-move event, characterised by its raycast outcome: the
nearest hit (`hits[0]`) as the index of the blob whose hit mesh was hit
together with the hit point already converted to that blob's local
space, or `none` when the ray misses every hit mesh. -/
abbrev PointerHit : Type := Option (ℕ × (ℚ × ℚ × ℚ))

/-- `onPointerMove(e)` from interaction.js.  Returns the new state and
whether `playHover()` was called during the event.  In focus mode
(`panelState.panelOpen`) only the focused blob is touched; in browse mode
the nearest hit blob records its hit point, and a hover transition
clears the previous blob, raises the new blob's flag, updates
`hoveredBlob` and fires the hover cue. -/
def onPointerMove (s : NavState) (e : PointerHit) : NavState × Bool :=
  if s.panelOpen then
    match s.blobs[s.focusedIdx]? with
    | some fb =>
      match e with
      | some (i, pt) =>
        if i = s.focusedIdx then
          ({ s with blobs :=
              s.blobs.set s.focusedIdx ({ fb with hitLocal := some pt, hovered := true }) },
           false)
        else
          (if fb.hitLocal.isSome then
            { s with blobs := s.blobs.set s.focusedIdx ({ fb with hitLocal := none }) }
           else s, false)
      | none =>
        (if fb.hitLocal.isSome then
          { s with blobs := s.blobs.set s.focusedIdx ({ fb with hitLocal := none }) }
         else s, false)
    | none => (s, false)
  else
    match e with
    | some (i, pt) =>
      match s.blobs[i]? with
      | some b =>
        let blobs1 := s.blobs.set i ({ b with hitLocal := some pt })
        if s.hoveredBlob = some i then
          ({ s with blobs := blobs1 }, false)
        else
          let blobs2 :=
            match s.hoveredBlob with
            | some j =>
              match blobs1[j]? with
              | some bj => blobs1.set j ({ bj with hovered := false, hitLocal := none })
              | none => blobs1
            | none => blobs1
          let blobs3 :=
            match blobs2[i]? with
            | some bi => blobs2.set i ({ bi with hovered := true })
            | none => blobs2
          ({ s with blobs := blobs3, hoveredBlob := some i }, true)
      | none => (s, false)
    | none =>
      match s.hoveredBlob with
      | some j =>
        let blobs1 :=
          match s.blobs[j]? with
          | some bj => s.blobs.set j ({ bj with hovered := false, hitLocal := none })
          | none => s.blobs
        ({ s with blobs := blobs1, hoveredBlob := none }, false)
      | none => (s, false)

/-- Processing of a sequence of pointer-move events by the resolver. -/
def runPointer (s : NavState) (es : List PointerHit) : NavState :=
  es.foldl (fun s e => (onPointerMove s e).1) s

/-- At most one blob of the collection has its hover flag raised. -/
def AtMostOneHovered (s : NavState) : Prop :=
  ∀ (j k : ℕ) (bj bk : Blob), s.blobs[j]? = some bj → s.blobs[k]? = some bk →
    bj.hovered = true → bk.hovered = true → j = k

/-- Consistency between the blob hover flags and the module-level
`hoveredBlob` reference maintained by the browse-mode resolver. -/
def HoverInv (s : NavState) : Prop :=
  ∀ (j : ℕ) (b : Blob), s.blobs[j]? = some b → (b.hovered = true ↔ s.hoveredBlob = some j)

/- ═══════════ nav.js — side navigation mouseenter handler ═══════════ -/

/-- Side-navigation `mouseenter` handler installed by `initNav`
(src/js/nav.js) for nav item `idx`: plays the hover cue and sets
`blobs[idx].hovered = true`, touching no other blob and never consulting
or clearing the raycast resolver's `hoveredBlob`.  The returned flag
records the `playHover()` call; an out-of-range index is a JavaScript
TypeError (setting a property of `undefined`). -/
def navMouseEnter (blobs : List Blob) (idx : ℕ) : Except String (List Blob × Bool) :=
  match blobs[idx]? with
  | some b => .ok (blobs.set idx ({ b with hovered := true }), true)
  | none => .error "TypeError: blobs index out of range"

/- ═══════════ orbs.js — createOrbs label construction ═══════════ -/

/-- Project descriptor as read by the orb label construction: only the
`name` field is consumed there; a missing field reads as `undefined`,
modelled by `none`. -/
structure ProjectData where
  name : Option String

/-- JavaScript `x.toUpperCase()` on a possibly-undefined string: a method
call on `undefined` throws a TypeError. -/
def jsToUpperCase : Option String → Except String String
  | none => .error "TypeError: Cannot read properties of undefined (reading toUpperCase)"
  | some s => .ok s.toUpper

/-- Label-text computation of `createOrbs` (orbs.js): the unguarded
expression `proj.name.toUpperCase()` passed to `makeDottedLabel`, under
JavaScript semantics. -/
def createOrbLabelText (proj : ProjectData) : Except String String :=
  jsToUpperCase proj.name

/- ═══════════ helper lemmas about shDeform ═══════════ -/

/-- Unfolding of the `shDeform` accumulation loop into a `Finset` sum. -/
theorem shDeform_eq_sum (theta phi : ℝ) (coeffs : ℕ → ℝ) :
    shDeform theta phi coeffs =
      ∑ i ∈ Finset.range 12, coeffs i * (Y.getD i fun _ _ => 0) theta phi := by
  simp [shDeform, N_COEFFS, Y, Finset.sum_range_succ, List.range_succ]

/-- Triangle-style bound for a product from bounds on the factors. -/
theorem absMulLe {a b A B : ℝ} (ha : |a| ≤ A) (hb : |b| ≤ B) : |a * b| ≤ A * B := by
  rw [abs_mul]
  exact mul_le_mul ha hb (abs_nonneg b) (le_trans (abs_nonneg a) ha)

/-- Every basis function of `Y` is bounded by 3 in absolute value (crude
but uniform bound; indices past the end of the array evaluate to 0). -/
theorem Y_abs_le_three (i : ℕ) (t p : ℝ) : |(Y.getD i fun _ _ => 0) t p| ≤ 3 := by
  have habs : ∀ c : ℝ, 0 ≤ c → |c| ≤ c := fun c hc => le_of_eq (abs_of_nonneg hc)
  have hs2 : |Real.sin t ^ 2| ≤ 1 := by
    rw [abs_of_nonneg (sq_nonneg _)]
    exact Real.sin_sq_le_one t
  have hsc : |Real.sin t * Real.cos t| ≤ 1 :=
    le_trans (absMulLe (Real.abs_sin_le_one t) (Real.abs_cos_le_one t)) (by norm_num)
  have hq5 : |5 * Real.cos t ^ 2 - 1| ≤ 6 := by
    rw [abs_le]
    constructor <;> nlinarith [Real.cos_sq_le_one t, sq_nonneg (Real.cos t)]
  rcases i with _|_|_|_|_|_|_|_|_|_|_|_|n
  · simp only [Y, List.getD_cons_zero]
    rw [abs_le]
    constructor <;> norm_num
  · simp only [Y, List.getD_cons_succ, List.getD_cons_zero]
    calc |0.4886025119 * Real.sin t * Real.sin p|
        ≤ 0.4886025119 * 1 * 1 :=
          absMulLe (absMulLe (habs _ (by norm_num)) (Real.abs_sin_le_one t))
            (Real.abs_sin_le_one p)
      _ ≤ 3 := by norm_num
  · simp only [Y, List.getD_cons_succ, List.getD_cons_zero]
    calc |0.4886025119 * Real.cos t|
        ≤ 0.4886025119 * 1 := absMulLe (habs _ (by norm_num)) (Real.abs_cos_le_one t)
      _ ≤ 3 := by norm_num
  · simp only [Y, List.getD_cons_succ, List.getD_cons_zero]
    calc |0.4886025119 * Real.sin t * Real.cos p|
        ≤ 0.4886025119 * 1 * 1 :=
          absMulLe (absMulLe (habs _ (by norm_num)) (Real.abs_sin_le_one t))
            (Real.abs_cos_le_one p)
      _ ≤ 3 := by norm_num
  · simp only [Y, List.getD_cons_succ, List.getD_cons_zero]
    calc |0.5462742153 * Real.sin t ^ 2 * Real.sin (2 * p)|
        ≤ 0.5462742153 * 1 * 1 :=
          absMulLe (absMulLe (habs _ (by norm_num)) hs2) (Real.abs_sin_le_one (2 * p))
      _ ≤ 3 := by norm_num
  · simp only [Y, List.getD_cons_succ, List.getD_cons_zero]
    calc |0.5462742153 * (Real.sin t * Real.cos t) * Real.sin p|
        ≤ 0.5462742153 * 1 * 1 :=
          absMulLe (absMulLe (habs _ (by norm_num)) hsc) (Real.abs_sin_le_one p)
      _ ≤ 3 := by norm_num
  · simp only [Y, List.getD_cons_succ, List.getD_cons_zero]
    have hq : |3 * Real.cos t ^ 2 - 1| ≤ 4 := by
      rw [abs_le]
      constructor <;> nlinarith [Real.cos_sq_le_one t, sq_nonneg (Real.cos t)]
    calc |(0.3153915653 : ℝ) * (3 * Real.cos t ^ 2 - 1)|
        ≤ 0.3153915653 * 4 := absMulLe (habs _ (by norm_num)) hq
      _ ≤ 3 := by norm_num
  · simp only [Y, List.getD_cons_succ, List.getD_cons_zero]
    calc |0.5462742153 * (Real.sin t * Real.cos t) * Real.cos p|
        ≤ 0.5462742153 * 1 * 1 :=
          absMulLe (absMulLe (habs _ (by norm_num)) hsc) (Real.abs_cos_le_one p)
      _ ≤ 3 := by norm_num
  · simp only [Y, List.getD_cons_succ, List.getD_cons_zero]
    calc |0.5462742153 * Real.sin t ^ 2 * Real.cos (2 * p)|
        ≤ 0.5462742153 * 1 * 1 :=
          absMulLe (absMulLe (habs _ (by norm_num)) hs2) (Real.abs_cos_le_one (2 * p))
      _ ≤ 3 := by norm_num
  · simp only [Y, List.getD_cons_succ, List.getD_cons_zero]
    calc |0.4570457995 * Real.sin t * (5 * Real.cos t ^ 2 - 1) * Real.sin p|
        ≤ 0.4570457995 * 1 * 6 * 1 :=
          absMulLe (absMulLe (absMulLe (habs _ (by norm_num)) (Real.abs_sin_le_one t)) hq5)
            (Real.abs_sin_le_one p)
      _ ≤ 3 := by norm_num
  · simp only [Y, List.getD_cons_succ, List.getD_cons_zero]
    have hq : |5 * Real.cos t ^ 3 - 3 * Real.cos t| ≤ 8 := by
      rw [abs_le]
      constructor <;>
        nlinarith [Real.cos_le_one t, Real.neg_one_le_cos t, Real.cos_sq_le_one t,
          sq_nonneg (1 - Real.cos t), sq_nonneg (1 + Real.cos t)]
    calc |(0.3731763326 : ℝ) * (5 * Real.cos t ^ 3 - 3 * Real.cos t)|
        ≤ 0.3731763326 * 8 := absMulLe (habs _ (by norm_num)) hq
      _ ≤ 3 := by norm_num
  · simp only [Y, List.getD_cons_succ, List.getD_cons_zero]
    calc |0.4570457995 * Real.sin t * (5 * Real.cos t ^ 2 - 1) * Real.cos p|
        ≤ 0.4570457995 * 1 * 6 * 1 :=
          absMulLe (absMulLe (absMulLe (habs _ (by norm_num)) (Real.abs_sin_le_one t)) hq5)
            (Real.abs_cos_le_one p)
      _ ≤ 3 := by norm_num
  · have h : Y.length ≤ n + 12 := by simp [Y]
    rw [List.getD_eq_default _ _ h]
    norm_num

/-- Crude but finite uniform bound on the displacement in terms of the
coefficient magnitudes. -/
theorem shDeform_abs_le (theta phi : ℝ) (coeffs : ℕ → ℝ) :
    |shDeform theta phi coeffs| ≤ 3 * ∑ i ∈ Finset.range 12, |coeffs i| := by
  rw [shDeform_eq_sum]
  calc |∑ i ∈ Finset.range 12, coeffs i * (Y.getD i fun _ _ => 0) theta phi|
      ≤ ∑ i ∈ Finset.range 12, |coeffs i * (Y.getD i fun _ _ => 0) theta phi| :=
        Finset.abs_sum_le_sum_abs _ _
    _ ≤ ∑ i ∈ Finset.range 12, |coeffs i| * 3 := by
        refine Finset.sum_le_sum fun i _ => ?_
        rw [abs_mul]
        exact mul_le_mul_of_nonneg_left (Y_abs_le_three i theta phi) (abs_nonneg _)
    _ = 3 * ∑ i ∈ Finset.range 12, |coeffs i| := by
        rw [← Finset.sum_mul, mul_comm]

/-- With all coefficients zero except index 0 the displacement is the
constant `coeffs[0] · Y_0^0 = baseR · 0.2820947917`, for every angle. -/
theorem shDeform_sphereCoeffs (theta phi baseR : ℝ) :
    shDeform theta phi (sphereCoeffs baseR) = baseR * 0.2820947917 := by
  rw [shDeform_eq_sum]
  simp [sphereCoeffs, Finset.sum_range_succ, Y]

/-- C1 (amended): running `morphGeo` with a coefficient array that is
all-zero except index 0 = `baseR` places every written vertex at distance
exactly `baseR * 1.2820947917` from the origin (the spherical-harmonic
basis function `Y_0^0` is the constant `0.2820947917`, not `1`, so the
result is a perfect sphere of radius `baseR·(1 + 0.2820947917)`, not
`baseR`). -/
theorem morphGeo_sphereCoeffs_radius (baseR : ℝ) (h0 : 0 ≤ baseR) (geo : Geo)
    (ua : ℕ → ℝ) (v : ℝ × ℝ × ℝ)
    (hv : v ∈ (morphGeo geo ua (sphereCoeffs baseR) baseR).positions) :
    Real.sqrt (v.1 ^ 2 + v.2.1 ^ 2 + v.2.2 ^ 2) = baseR * 1.2820947917 := by
  rcases List.mem_map.mp hv with ⟨i, _, rfl⟩
  show Real.sqrt _ = _
  rw [morphVertex]
  have hde := shDeform_sphereCoeffs (ua (i * 2)) (ua (i * 2 + 1)) baseR
  set t := ua (i * 2)
  set p := ua (i * 2 + 1)
  simp only [hde]
  have hr : baseR + baseR * 0.2820947917 = baseR * 1.2820947917 := by ring_nf
  rw [hr]
  have hsq :
      (baseR * 1.2820947917 * Real.sin t * Real.cos p) ^ 2 +
        (baseR * 1.2820947917 * Real.cos t) ^ 2 +
        (baseR * 1.2820947917 * Real.sin t * Real.sin p) ^ 2 =
        (baseR * 1.2820947917) ^ 2 := by
    have h1 := Real.sin_sq_add_cos_sq t
    have h2 := Real.sin_sq_add_cos_sq p
    calc (baseR * 1.2820947917 * Real.sin t * Real.cos p) ^ 2 +
          (baseR * 1.2820947917 * Real.cos t) ^ 2 +
          (baseR * 1.2820947917 * Real.sin t * Real.sin p) ^ 2
        = (baseR * 1.2820947917) ^ 2 *
            (Real.sin t ^ 2 * (Real.sin p ^ 2 + Real.cos p ^ 2) + Real.cos t ^ 2) := by
          ring
      _ = (baseR * 1.2820947917) ^ 2 := by rw [h2, mul_one, h1, mul_one]
  rw [hsq]
  exact Real.sqrt_sq (by positivity)

/-- C1 (counterexample to the claim as stated): on a one-vertex geometry
with cached angles θ = 0, φ = 0, with `baseR = 1.5` and
`coeffs = [1.5, 0, …, 0]`, `morphGeo` writes the vertex
`(0, 1.5 + 1.5·0.2820947917, 0)`, whose distance from the origin is
`1.92314218755`, not `1.5`. -/
theorem morphGeo_sphereCoeffs_not_baseR :
    (morphGeo geo1 ua0 (sphereCoeffs 1.5) 1.5).positions =
      [morphVertex ua0 (sphereCoeffs 1.5) 1.5 0] ∧
    Real.sqrt ((morphVertex ua0 (sphereCoeffs 1.5) 1.5 0).1 ^ 2 +
        (morphVertex ua0 (sphereCoeffs 1.5) 1.5 0).2.1 ^ 2 +
        (morphVertex ua0 (sphereCoeffs 1.5) 1.5 0).2.2 ^ 2) ≠ 1.5 := by
  constructor
  · simp [morphGeo, geo1, List.range_succ]
  · rw [morphVertex]
    simp only [ua0, shDeform_sphereCoeffs, Real.sin_zero, Real.cos_zero]
    intro hEq
    rw [show ((1.5 : ℝ) + 1.5 * 0.2820947917) * 0 * 1 = 0 by ring,
      show ((1.5 : ℝ) + 1.5 * 0.2820947917) * 0 * 0 = 0 by ring] at hEq
    rw [show (0 : ℝ) ^ 2 + (((1.5 : ℝ) + 1.5 * 0.2820947917) * 1) ^ 2 + 0 ^ 2 =
        ((1.5 : ℝ) + 1.5 * 0.2820947917) ^ 2 by ring] at hEq
    rw [Real.sqrt_sq (by norm_num)] at hEq
    norm_num at hEq

/-- C1 (witness): the amended theorem applied at `baseR = 1.5` on the
concrete one-vertex geometry. -/
theorem morphGeo_sphereCoeffs_radius_witness :
    (0 : ℝ) ≤ 1.5 ∧
    Real.sqrt ((morphVertex ua0 (sphereCoeffs 1.5) 1.5 0).1 ^ 2 +
        (morphVertex ua0 (sphereCoeffs 1.5) 1.5 0).2.1 ^ 2 +
        (morphVertex ua0 (sphereCoeffs 1.5) 1.5 0).2.2 ^ 2) = 1.5 * 1.2820947917 :=
  ⟨by norm_num,
    morphGeo_sphereCoeffs_radius 1.5 (by norm_num) geo1 ua0 _
      (by simp [morphGeo, geo1, List.range_succ])⟩

/-- C2: `randomCoeffs(base, amp)` always has index 0 exactly `base`, and
for any non-negative `amp` and any sequence of draws in `[0, 1)` the
band magnitudes obey `|c[1..3]| ≤ 0.225·amp`, `|c[4..8]| ≤ 0.30·amp`,
`|c[9..11]| ≤ 0.175·amp`. -/
theorem randomCoeffs_bands (base amp : ℝ) (rand : ℕ → ℝ) (hamp : 0 ≤ amp)
    (hrand : ∀ n, 0 ≤ rand n ∧ rand n < 1) :
    randomCoeffs base amp rand 0 = base ∧
    (∀ i : Fin 12, 1 ≤ i.val → i.val ≤ 3 →
      |randomCoeffs base amp rand i| ≤ 0.225 * amp) ∧
    (∀ i : Fin 12, 4 ≤ i.val → i.val ≤ 8 →
      |randomCoeffs base amp rand i| ≤ 0.30 * amp) ∧
    (∀ i : Fin 12, 9 ≤ i.val → i.val ≤ 11 →
      |randomCoeffs base amp rand i| ≤ 0.175 * amp) := by
  have hdraw : ∀ n, |rand n - 0.5| ≤ 0.5 := by
    intro n
    rcases hrand n with ⟨hl, hu⟩
    rw [abs_le]
    constructor <;> [linarith; linarith]
  refine ⟨by simp [randomCoeffs], fun i h1 h3 => ?_, fun i h4 h8 => ?_,
    fun i h9 h11 => ?_⟩
  · rw [randomCoeffs]
    rw [if_neg (by omega), if_pos (by omega)]
    have hd := hdraw (i.val - 1)
    calc |(rand (i.val - 1) - 0.5) * amp * 0.45|
        = |rand (i.val - 1) - 0.5| * |amp| * |(0.45 : ℝ)| := by
          rw [abs_mul, abs_mul]
      _ ≤ 0.5 * amp * 0.45 := by
          rw [abs_of_nonneg hamp]
          rw [show |(0.45 : ℝ)| = 0.45 from abs_of_nonneg (by norm_num)]
          exact mul_le_mul_of_nonneg_right
            (mul_le_mul_of_nonneg_right hd hamp) (by norm_num)
      _ = 0.225 * amp := by ring
  · rw [randomCoeffs]
    rw [if_neg (by omega), if_neg (by omega), if_pos (by omega)]
    have hd := hdraw (i.val - 1)
    calc |(rand (i.val - 1) - 0.5) * amp * 0.60|
        = |rand (i.val - 1) - 0.5| * |amp| * |(0.60 : ℝ)| := by
          rw [abs_mul, abs_mul]
      _ ≤ 0.5 * amp * 0.60 := by
          rw [abs_of_nonneg hamp]
          rw [show |(0.60 : ℝ)| = 0.60 from abs_of_nonneg (by norm_num)]
          exact mul_le_mul_of_nonneg_right
            (mul_le_mul_of_nonneg_right hd hamp) (by norm_num)
      _ = 0.30 * amp := by ring
  · rw [randomCoeffs]
    rw [if_neg (by omega), if_neg (by omega), if_neg (by omega)]
    have hd := hdraw (i.val - 1)
    calc |(rand (i.val - 1) - 0.5) * amp * 0.35|
        = |rand (i.val - 1) - 0.5| * |amp| * |(0.35 : ℝ)| := by
          rw [abs_mul, abs_mul]
      _ ≤ 0.5 * amp * 0.35 := by
          rw [abs_of_nonneg hamp]
          rw [show |(0.35 : ℝ)| = 0.35 from abs_of_nonneg (by norm_num)]
          exact mul_le_mul_of_nonneg_right
            (mul_le_mul_of_nonneg_right hd hamp) (by norm_num)
      _ = 0.175 * amp := by ring

/-- C2 (witness): the band bounds applied at `base = 2`, `amp = 1` with
the constant draw sequence 0. -/
theorem randomCoeffs_bands_witness :
    ((0 : ℝ) ≤ 1 ∧ (∀ n : ℕ, (0 : ℝ) ≤ (fun _ : ℕ => (0 : ℝ)) n ∧
        (fun _ : ℕ => (0 : ℝ)) n < 1)) ∧
    (randomCoeffs 2 1 (fun _ => 0) 0 = 2 ∧
      (∀ i : Fin 12, 1 ≤ i.val → i.val ≤ 3 →
        |randomCoeffs 2 1 (fun _ => 0) i| ≤ 0.225 * 1) ∧
      (∀ i : Fin 12, 4 ≤ i.val → i.val ≤ 8 →
        |randomCoeffs 2 1 (fun _ => 0) i| ≤ 0.30 * 1) ∧
      (∀ i : Fin 12, 9 ≤ i.val → i.val ≤ 11 →
        |randomCoeffs 2 1 (fun _ => 0) i| ≤ 0.175 * 1)) :=
  ⟨⟨by norm_num, fun n => ⟨le_refl 0, by norm_num⟩⟩,
    randomCoeffs_bands 2 1 (fun _ => 0) (by norm_num)
      (fun n => ⟨le_refl 0, by norm_num⟩)⟩

/-- C3: `morphGeo` writes, at every vertex index `i` of the position
buffer, the Cartesian point obtained from the cached angles
`θ = unitAngles[2·i]`, `φ = unitAngles[2·i+1]` and the radius
`r = baseR + shDeform(θ, φ, coeffs)`, keeps the vertex count, and raises
the buffer's `needsUpdate` flag. -/
theorem morphGeo_writes (geo : Geo) (ua coeffs : ℕ → ℝ) (baseR : ℝ) (i : ℕ)
    (hi : i < geo.positions.length) :
    (morphGeo geo ua coeffs baseR).positions[i]? =
      some (((baseR + shDeform (ua (i * 2)) (ua (i * 2 + 1)) coeffs) *
              Real.sin (ua (i * 2)) * Real.cos (ua (i * 2 + 1)),
             (baseR + shDeform (ua (i * 2)) (ua (i * 2 + 1)) coeffs) *
              Real.cos (ua (i * 2)),
             (baseR + shDeform (ua (i * 2)) (ua (i * 2 + 1)) coeffs) *
              Real.sin (ua (i * 2)) * Real.sin (ua (i * 2 + 1)))) ∧
    (morphGeo geo ua coeffs baseR).positions.length = geo.positions.length ∧
    (morphGeo geo ua coeffs baseR).needsUpdate = true := by
  refine ⟨?_, by simp [morphGeo], rfl⟩
  show ((List.range geo.positions.length).map (morphVertex ua coeffs baseR))[i]? = _
  rw [List.getElem?_map, List.getElem?_range hi]
  rfl

/-- C3 (witness): the write contract applied to the concrete one-vertex
geometry at index 0. -/
theorem morphGeo_writes_witness :
    0 < geo1.positions.length ∧
    ((morphGeo geo1 ua0 (sphereCoeffs 1.5) 1.5).positions[0]? =
      some (((1.5 + shDeform (ua0 0) (ua0 1) (sphereCoeffs 1.5)) *
              Real.sin (ua0 0) * Real.cos (ua0 1),
             (1.5 + shDeform (ua0 0) (ua0 1) (sphereCoeffs 1.5)) *
              Real.cos (ua0 0),
             (1.5 + shDeform (ua0 0) (ua0 1) (sphereCoeffs 1.5)) *
              Real.sin (ua0 0) * Real.sin (ua0 1))) ∧
      (morphGeo geo1 ua0 (sphereCoeffs 1.5) 1.5).positions.length =
        geo1.positions.length ∧
      (morphGeo geo1 ua0 (sphereCoeffs 1.5) 1.5).needsUpdate = true) :=
  ⟨by simp [geo1], morphGeo_writes geo1 ua0 (sphereCoeffs 1.5) 1.5 0 (by simp [geo1])⟩

/-- C9: `shDeform` is deterministic (identical inputs give identical
outputs) and finite: its magnitude is bounded by three times the sum of
the coefficient magnitudes, for every angle pair. -/
theorem shDeform_deterministic_finite (theta phi theta' phi' : ℝ)
    (c c' : ℕ → ℝ) (ht : theta = theta') (hp : phi = phi')
    (hc : ∀ i, c i = c' i) :
    shDeform theta phi c = shDeform theta' phi' c' ∧
    |shDeform theta phi c| ≤ 3 * ∑ i ∈ Finset.range 12, |c i| := by
  have hcc : c = c' := funext hc
  subst ht hp hcc
  exact ⟨rfl, shDeform_abs_le theta phi c⟩

/-- C9 (witness): determinism and the finite bound at θ = φ = 0 with the
all-zero coefficient array. -/
theorem shDeform_deterministic_finite_witness :
    ((0 : ℝ) = 0 ∧ (∀ i : ℕ, (fun _ : ℕ => (0 : ℝ)) i = (fun _ : ℕ => (0 : ℝ)) i)) ∧
    (shDeform 0 0 (fun _ => 0) = shDeform 0 0 (fun _ => 0) ∧
      |shDeform 0 0 (fun _ => 0)| ≤
        3 * ∑ i ∈ Finset.range 12, |(fun _ : ℕ => (0 : ℝ)) i|) :=
  ⟨⟨rfl, fun _ => rfl⟩,
    shDeform_deterministic_finite 0 0 0 0 _ _ rfl rfl (fun _ => rfl)⟩

/- ═══════════ wave ripple lemmas (C4) ═══════════ -/

/-- The early return of `updateWaveRipple` on an inactive wave. -/
theorem updateWaveRipple_inactive (b : WBlob) (dt : ℚ) (hb : b.waveActive = false) :
    updateWaveRipple b dt = b := by
  rw [updateWaveRipple, if_pos hb]

/-- Once the wave is inactive, ticking never reactivates it. -/
theorem simWave_inactive (steps : List (ℚ × Bool)) : ∀ b : WBlob,
    b.waveActive = false → (simWave b steps).waveActive = false := by
  induction steps with
  | nil => intro b hb; exact hb
  | cons s rest ih =>
    intro b hb
    have hstep : simWave b (s :: rest) =
        simWave (updateWaveRipple { b with hovered := s.2 } s.1) rest := rfl
    rw [hstep, updateWaveRipple_inactive _ _ (by simpa using hb)]
    exact ih _ (by simpa using hb)

/-- Field-level description of one active tick: the wave deactivates at
this tick exactly when the blob is unhovered and the accumulated elapsed
time crosses 2.5; otherwise it stays active with `dt` accumulated. -/
theorem updateWaveRipple_active_spec (b : WBlob) (dt : ℚ)
    (hb : b.waveActive = true) :
    ((b.hovered = false ∧ b.waveElapsed + dt > 2.5) →
      (updateWaveRipple b dt).waveActive = false) ∧
    (¬(b.hovered = false ∧ b.waveElapsed + dt > 2.5) →
      (updateWaveRipple b dt).waveActive = true ∧
      (updateWaveRipple b dt).waveElapsed = b.waveElapsed + dt) := by
  rw [updateWaveRipple, if_neg (by simp [hb])]
  cases hl : b.hitLocal <;> simp only [hl] <;> constructor <;> intro hc
  · rw [if_pos (by simpa using hc)]
  · rw [if_neg (by simpa using hc)]
    exact ⟨hb, rfl⟩
  · rw [if_pos (by simpa using hc)]
  · rw [if_neg (by simpa using hc)]
    exact ⟨hb, rfl⟩

/-- Deactivation of the ticked wave, characterised over every run: the
wave is off after the run exactly when some processed tick had the blob
unhovered with the elapsed time accumulated since activation above 2.5. -/
theorem simWave_active_iff (steps : List (ℚ × Bool)) : ∀ b : WBlob,
    b.waveActive = true →
    ((simWave b steps).waveActive = false ↔
      ∃ i, i < steps.length ∧ (steps.getD i (0, true)).2 = false ∧
        b.waveElapsed + ((steps.take (i + 1)).map Prod.fst).sum > 2.5) := by
  induction steps with
  | nil =>
    intro b hb
    simp [simWave, hb]
  | cons s rest ih =>
    intro b hb
    obtain ⟨dt, h⟩ := s
    have hstep : simWave b ((dt, h) :: rest) =
        simWave (updateWaveRipple { b with hovered := h } dt) rest := rfl
    rw [hstep]
    have hspec := updateWaveRipple_active_spec { b with hovered := h } dt (by simpa using hb)
    by_cases hcond : h = false ∧ b.waveElapsed + dt > 2.5
    · have hoff : (updateWaveRipple { b with hovered := h } dt).waveActive = false :=
        hspec.1 (by simpa using hcond)
      constructor
      · intro _
        refine ⟨0, by simp, by simpa using hcond.1, ?_⟩
        simpa using (by linarith [hcond.2] : b.waveElapsed + (dt + 0) > 2.5)
      · intro _
        exact simWave_inactive rest _ hoff
    · obtain ⟨hact, helap⟩ := hspec.2 (by simpa using hcond)
      rw [ih _ hact, helap]
      constructor
      · rintro ⟨i, hi, hfalse, hsum⟩
        refine ⟨i + 1, by simpa using Nat.succ_lt_succ hi, by simpa using hfalse, ?_⟩
        rw [List.take_succ_cons, List.map_cons, List.sum_cons]
        show b.waveElapsed + (dt + _) > 2.5
        linarith [hsum]
      · rintro ⟨i, hi, hfalse, hsum⟩
        cases i with
        | zero =>
          exfalso
          apply hcond
          refine ⟨by simpa using hfalse, ?_⟩
          have hs0 : b.waveElapsed + (dt + 0) > 2.5 := by simpa using hsum
          linarith [hs0]
        | succ i' =>
          refine ⟨i', by simp at hi; omega, by simpa using hfalse, ?_⟩
          rw [List.take_succ_cons, List.map_cons, List.sum_cons] at hsum
          have hs1 : b.waveElapsed + (dt + ((rest.take (i' + 1)).map Prod.fst).sum) > 2.5 := by
            simpa using hsum
          linarith [hs1]

/-- C4 (amended): after `startWave` runs at the hover-start, `waveActive`
becomes false exactly at the first tick at which the blob is no longer
hovered and the time elapsed since the wave was started — not since the
hover ended — exceeds 2.5 seconds, and at no earlier tick.  (The code
compares `waveElapsed`, which accumulates from `startWave` onward, with
2.5, so a hover lasting longer than 2.5 s makes the wave stop on the very
first unhovered tick.) -/
theorem waveRipple_lifecycle (b : WBlob) (steps : List (ℚ × Bool)) :
    (simWave (startWave b) steps).waveActive = false ↔
      ∃ i, i < steps.length ∧ (steps.getD i (0, true)).2 = false ∧
        ((steps.take (i + 1)).map Prod.fst).sum > 2.5 := by
  have h1 : (startWave b).waveActive = true := by
    rw [startWave]
    cases b.hitLocal <;> rfl
  have h2 : (startWave b).waveElapsed = 0 := by
    rw [startWave]
    cases b.hitLocal <;> rfl
  have := simWave_active_iff steps (startWave b) h1
  rw [h2] at this
  simpa using this

/-- C4 (counterexample to the claim as stated): with one-second frames,
hover lasting three seconds (three hovered ticks after `startWave`) and
ending at `t0 = 3`, the wave is still active at `t0` but turns off on the
very next tick — only 1 second after the hover end, although the claim
requires `waveActive` to stay true until more than 2.5 seconds have
passed since `t0`. -/
theorem waveRipple_deactivates_early :
    (simWave (startWave wb0) [(1, true), (1, true), (1, true)]).waveActive = true ∧
    (simWave (startWave wb0)
        [(1, true), (1, true), (1, true), (1, false)]).waveActive = false ∧
    ¬((1 : ℚ) > 2.5) := by
  refine ⟨?_, ?_, by norm_num⟩ <;>
    norm_num [simWave, startWave, updateWaveRipple, wb0]

/- ═══════════ pointer resolver lemmas (C5, C6, C7) ═══════════ -/

/-- Browse mode, ray miss, nothing hovered: the event is a no-op. -/
theorem onPointerMove_miss_none (s : NavState) (hp : s.panelOpen = false)
    (hj : s.hoveredBlob = none) : onPointerMove s none = (s, false) := by
  simp [onPointerMove, hp, hj]

/-- Browse mode, ray miss while blob `j` is hovered: blob `j` is cleared
(hover flag and hit point) and `hoveredBlob` is reset. -/
theorem onPointerMove_miss_hovered (s : NavState) (j : ℕ) (bj : Blob)
    (hp : s.panelOpen = false) (hj : s.hoveredBlob = some j)
    (hbj : s.blobs[j]? = some bj) :
    onPointerMove s none =
      ({ s with
          blobs := s.blobs.set j ({ bj with hovered := false, hitLocal := none }),
          hoveredBlob := none }, false) := by
  simp [onPointerMove, hp, hj, hbj]

/-- Browse mode, ray miss with a dangling `hoveredBlob` index: only the
reference is reset. -/
theorem onPointerMove_miss_dangling (s : NavState) (j : ℕ)
    (hp : s.panelOpen = false) (hj : s.hoveredBlob = some j)
    (hbj : s.blobs[j]? = none) :
    onPointerMove s none = ({ s with hoveredBlob := none }, false) := by
  simp [onPointerMove, hp, hj, hbj]

/-- Browse mode, hit on an index with no corresponding blob: the event is
a no-op (the `find` over the collection yields nothing). -/
theorem onPointerMove_hit_unknown (s : NavState) (i : ℕ) (pt : ℚ × ℚ × ℚ)
    (hp : s.panelOpen = false) (hb : s.blobs[i]? = none) :
    onPointerMove s (some (i, pt)) = (s, false) := by
  simp [onPointerMove, hp, hb]

/-- Browse mode, hit on the already-hovered blob: only its hit point is
refreshed; no transition, no cue. -/
theorem onPointerMove_hit_same (s : NavState) (i : ℕ) (pt : ℚ × ℚ × ℚ) (b : Blob)
    (hp : s.panelOpen = false) (hb : s.blobs[i]? = some b)
    (hs : s.hoveredBlob = some i) :
    onPointerMove s (some (i, pt)) =
      ({ s with blobs := s.blobs.set i ({ b with hitLocal := some pt }) }, false) := by
  simp [onPointerMove, hp, hb, hs]

/-- Browse mode, hover transition from nothing onto blob `i`: the blob
records the hit point and the raised hover flag, `hoveredBlob` moves to
`i`, and the hover cue fires. -/
theorem onPointerMove_hit_fromNone (s : NavState) (i : ℕ) (pt : ℚ × ℚ × ℚ)
    (b : Blob) (hp : s.panelOpen = false) (hb : s.blobs[i]? = some b)
    (hs : s.hoveredBlob = none) :
    onPointerMove s (some (i, pt)) =
      ({ s with
          blobs := (s.blobs.set i ({ b with hitLocal := some pt })).set i
            ({ b with hitLocal := some pt, hovered := true }),
          hoveredBlob := some i }, true) := by
  have hleni : i < s.blobs.length := (List.getElem?_eq_some_iff.mp hb).1
  have h2 : (s.blobs.set i ({ b with hitLocal := some pt }))[i]? =
      some ({ b with hitLocal := some pt }) := List.getElem?_set_self hleni
  simp [onPointerMove, hp, hb, hs, h2]

/-- Browse mode, hover transition from blob `j` onto blob `i ≠ j`: the
previous blob is cleared, the new blob records the hit point and the
raised hover flag, `hoveredBlob` moves to `i`, and the hover cue fires. -/
theorem onPointerMove_transition (s : NavState) (i j : ℕ) (pt : ℚ × ℚ × ℚ)
    (b bj : Blob) (hp : s.panelOpen = false) (hs : s.hoveredBlob = some j)
    (hij : j ≠ i) (hb : s.blobs[i]? = some b) (hbj : s.blobs[j]? = some bj) :
    onPointerMove s (some (i, pt)) =
      ({ s with
          blobs := ((s.blobs.set i ({ b with hitLocal := some pt })).set j
              ({ bj with hovered := false, hitLocal := none })).set i
              ({ b with hitLocal := some pt, hovered := true }),
          hoveredBlob := some i }, true) := by
  have hleni : i < s.blobs.length := (List.getElem?_eq_some_iff.mp hb).1
  have hsi : s.hoveredBlob ≠ some i := by
    rw [hs]
    exact fun h2 => hij (by simpa using h2)
  have h1 : (s.blobs.set i ({ b with hitLocal := some pt }))[j]? = some bj := by
    rw [List.getElem?_set_ne (fun h2 => hij h2.symm)]
    exact hbj
  have h2 : ((s.blobs.set i ({ b with hitLocal := some pt })).set j
      ({ bj with hovered := false, hitLocal := none }))[i]? =
      some ({ b with hitLocal := some pt }) := by
    rw [List.getElem?_set_ne hij]
    exact List.getElem?_set_self hleni
  simp [onPointerMove, hp, hb, hs, hsi, h1, h2]
  exact hij

/-- Browse mode, hover transition from a dangling `hoveredBlob` index
onto blob `i`: as from nothing, but the reference moves from `j`. -/
theorem onPointerMove_transition_dangling (s : NavState) (i j : ℕ)
    (pt : ℚ × ℚ × ℚ) (b : Blob) (hp : s.panelOpen = false)
    (hs : s.hoveredBlob = some j) (hij : j ≠ i) (hb : s.blobs[i]? = some b)
    (hbj : s.blobs[j]? = none) :
    onPointerMove s (some (i, pt)) =
      ({ s with
          blobs := (s.blobs.set i ({ b with hitLocal := some pt })).set i
            ({ b with hitLocal := some pt, hovered := true }),
          hoveredBlob := some i }, true) := by
  have hleni : i < s.blobs.length := (List.getElem?_eq_some_iff.mp hb).1
  have hsi : s.hoveredBlob ≠ some i := by
    rw [hs]
    exact fun h2 => hij (by simpa using h2)
  have h1 : (s.blobs.set i ({ b with hitLocal := some pt }))[j]? = none := by
    rw [List.getElem?_set_ne (fun h2 => hij h2.symm)]
    exact hbj
  have h2 : (s.blobs.set i ({ b with hitLocal := some pt }))[i]? =
      some ({ b with hitLocal := some pt }) := List.getElem?_set_self hleni
  simp [onPointerMove, hp, hb, hs, hsi, h1, h2]
  exact hij

/-- Browse-mode events leave the panel closed. -/
theorem onPointerMove_browse_panelOpen (s : NavState) (e : PointerHit)
    (hp : s.panelOpen = false) : (onPointerMove s e).1.panelOpen = false := by
  unfold onPointerMove
  rw [if_neg (by simp [hp])]
  repeat' split
  all_goals exact hp

/-- One browse-mode event preserves the hover consistency invariant. -/
theorem onPointerMove_browse_inv (s : NavState) (e : PointerHit)
    (hp : s.panelOpen = false) (hinv : HoverInv s) :
    HoverInv (onPointerMove s e).1 := by
  rcases e with _ | ⟨i, pt⟩
  · cases hj : s.hoveredBlob with
    | none =>
      rw [onPointerMove_miss_none s hp hj]
      exact hinv
    | some j =>
      cases hbj : s.blobs[j]? with
      | none =>
        rw [onPointerMove_miss_dangling s j hp hj hbj]
        intro k bk hbk
        have hbk' : s.blobs[k]? = some bk := hbk
        constructor
        · intro hh
          exfalso
          have hcontra := (hinv k bk hbk').mp hh
          rw [hj] at hcontra
          have hjk : j = k := by simpa using hcontra
          rw [hjk] at hbj
          rw [hbj] at hbk'
          exact Option.noConfusion hbk'
        · intro hcc
          exact Option.noConfusion hcc
      | some bj =>
        have hlenj : j < s.blobs.length := (List.getElem?_eq_some_iff.mp hbj).1
        rw [onPointerMove_miss_hovered s j bj hp hj hbj]
        intro k bk hbk
        have hbk' :
            (s.blobs.set j ({ bj with hovered := false, hitLocal := none }))[k]? =
              some bk := hbk
        constructor
        · intro hh
          exfalso
          by_cases hkj : k = j
          · subst hkj
            rw [List.getElem?_set_self hlenj] at hbk'
            have hbkeq : bk = { bj with hovered := false, hitLocal := none } := by
              simpa using hbk'.symm
            rw [hbkeq] at hh
            simp at hh
          · rw [List.getElem?_set_ne (fun h2 => hkj h2.symm)] at hbk'
            have hcontra := (hinv k bk hbk').mp hh
            rw [hj] at hcontra
            exact hkj (by simpa using hcontra.symm)
        · intro hcc
          exact Option.noConfusion hcc
  · cases hb : s.blobs[i]? with
    | none =>
      rw [onPointerMove_hit_unknown s i pt hp hb]
      exact hinv
    | some b =>
      have hleni : i < s.blobs.length := (List.getElem?_eq_some_iff.mp hb).1
      by_cases hsame : s.hoveredBlob = some i
      · rw [onPointerMove_hit_same s i pt b hp hb hsame]
        intro k bk hbk
        have hbk' : (s.blobs.set i ({ b with hitLocal := some pt }))[k]? = some bk := hbk
        by_cases hki : k = i
        · subst hki
          rw [List.getElem?_set_self hleni] at hbk'
          have hbkeq : bk = { b with hitLocal := some pt } := by simpa using hbk'.symm
          rw [hbkeq]
          simpa using hinv k b hb
        · rw [List.getElem?_set_ne (fun h2 => hki h2.symm)] at hbk'
          simpa using hinv k bk hbk'
      · cases hj : s.hoveredBlob with
        | none =>
          rw [onPointerMove_hit_fromNone s i pt b hp hb hj]
          intro k bk hbk
          have hbk' :
              ((s.blobs.set i ({ b with hitLocal := some pt })).set i
                ({ b with hitLocal := some pt, hovered := true }))[k]? = some bk := hbk
          by_cases hki : k = i
          · subst hki
            have hlen2 : k < (s.blobs.set k ({ b with hitLocal := some pt })).length := by
              simpa using hleni
            rw [List.getElem?_set_self hlen2] at hbk'
            have hbkeq : bk = { b with hitLocal := some pt, hovered := true } := by
              simpa using hbk'.symm
            rw [hbkeq]
            simp
          · rw [List.getElem?_set_ne (fun h2 => hki h2.symm),
              List.getElem?_set_ne (fun h2 => hki h2.symm)] at hbk'
            have hiff := hinv k bk hbk'
            rw [hj] at hiff
            constructor
            · intro hh
              exact absurd (hiff.mp hh) (by simp)
            · intro hcc
              exfalso
              exact hki (by simpa using hcc.symm)
        | some j =>
          have hij : j ≠ i := fun h2 => hsame (by rw [hj, h2])
          cases hbj : s.blobs[j]? with
          | some bj =>
            rw [onPointerMove_transition s i j pt b bj hp hj hij hb hbj]
            intro k bk hbk
            have hbk' :
                (((s.blobs.set i ({ b with hitLocal := some pt })).set j
                    ({ bj with hovered := false, hitLocal := none })).set i
                    ({ b with hitLocal := some pt, hovered := true }))[k]? =
                  some bk := hbk
            by_cases hki : k = i
            · subst hki
              have hlen2 :
                  k < ((s.blobs.set k ({ b with hitLocal := some pt })).set j
                    ({ bj with hovered := false, hitLocal := none })).length := by
                simpa using hleni
              rw [List.getElem?_set_self hlen2] at hbk'
              have hbkeq : bk = { b with hitLocal := some pt, hovered := true } := by
                simpa using hbk'.symm
              rw [hbkeq]
              simp
            · rw [List.getElem?_set_ne (fun h2 => hki h2.symm)] at hbk'
              by_cases hkj : k = j
              · subst hkj
                have hlenj2 : k < (s.blobs.set i ({ b with hitLocal := some pt })).length := by
                  simpa using (List.getElem?_eq_some_iff.mp hbj).1
                rw [List.getElem?_set_self hlenj2] at hbk'
                have hbkeq : bk = { bj with hovered := false, hitLocal := none } := by
                  simpa using hbk'.symm
                rw [hbkeq]
                constructor
                · intro hh
                  simp at hh
                · intro hcc
                  exfalso
                  exact hki (by simpa using hcc.symm)
              · rw [List.getElem?_set_ne (fun h2 => hkj h2.symm),
                  List.getElem?_set_ne (fun h2 => hki h2.symm)] at hbk'
                have hiff := hinv k bk hbk'
                rw [hj] at hiff
                constructor
                · intro hh
                  have hjk : j = k := by simpa using hiff.mp hh
                  exact absurd hjk.symm hkj
                · intro hcc
                  exfalso
                  exact hki (by simpa using hcc.symm)
          | none =>
            rw [onPointerMove_transition_dangling s i j pt b hp hj hij hb hbj]
            intro k bk hbk
            have hbk' :
                ((s.blobs.set i ({ b with hitLocal := some pt })).set i
                  ({ b with hitLocal := some pt, hovered := true }))[k]? = some bk := hbk
            by_cases hki : k = i
            · subst hki
              have hlen2 : k < (s.blobs.set k ({ b with hitLocal := some pt })).length := by
                simpa using hleni
              rw [List.getElem?_set_self hlen2] at hbk'
              have hbkeq : bk = { b with hitLocal := some pt, hovered := true } := by
                simpa using hbk'.symm
              rw [hbkeq]
              simp
            · rw [List.getElem?_set_ne (fun h2 => hki h2.symm),
                List.getElem?_set_ne (fun h2 => hki h2.symm)] at hbk'
              have hiff := hinv k bk hbk'
              rw [hj] at hiff
              constructor
              · intro hh
                exfalso
                have hjk : j = k := by simpa using hiff.mp hh
                rw [hjk] at hbj
                rw [hbj] at hbk'
                exact Option.noConfusion hbk'
              · intro hcc
                exfalso
                exact hki (by simpa using hcc.symm)

/-- The invariant and the closed panel persist along any event run. -/
theorem runPointer_browse_inv (es : List PointerHit) : ∀ s : NavState,
    s.panelOpen = false → HoverInv s →
    (runPointer s es).panelOpen = false ∧ HoverInv (runPointer s es) := by
  induction es with
  | nil => exact fun s hp hinv => ⟨hp, hinv⟩
  | cons e rest ih =>
    intro s hp hinv
    exact ih (onPointerMove s e).1 (onPointerMove_browse_panelOpen s e hp)
      (onPointerMove_browse_inv s e hp hinv)

/-- Focus mode: an event never touches the panel flag, the focused index,
or any blob other than the focused one. -/
theorem onPointerMove_panel_frozen (s : NavState) (e : PointerHit)
    (hp : s.panelOpen = true) :
    (onPointerMove s e).1.panelOpen = true ∧
    (onPointerMove s e).1.focusedIdx = s.focusedIdx ∧
    ∀ j, j ≠ s.focusedIdx → (onPointerMove s e).1.blobs[j]? = s.blobs[j]? := by
  unfold onPointerMove
  rw [if_pos hp]
  repeat' split
  all_goals refine ⟨hp, rfl, fun j hj => ?_⟩
  all_goals first
    | rfl
    | exact List.getElem?_set_ne (fun h2 => hj h2.symm)

/-- Focus mode persists along a run, freezing every non-focused blob. -/
theorem runPointer_panel_frozen (es : List PointerHit) : ∀ s : NavState,
    s.panelOpen = true →
    (runPointer s es).panelOpen = true ∧
    (runPointer s es).focusedIdx = s.focusedIdx ∧
    ∀ j, j ≠ s.focusedIdx → (runPointer s es).blobs[j]? = s.blobs[j]? := by
  induction es with
  | nil => exact fun s hp => ⟨hp, rfl, fun _ _ => rfl⟩
  | cons e rest ih =>
    intro s hp
    obtain ⟨hp1, hf1, hb1⟩ := onPointerMove_panel_frozen s e hp
    obtain ⟨hp2, hf2, hb2⟩ := ih (onPointerMove s e).1 hp1
    refine ⟨hp2, hf2.trans hf1, fun j hj => ?_⟩
    have hj1 : j ≠ (onPointerMove s e).1.focusedIdx := by
      rw [hf1]
      exact hj
    exact (hb2 j hj1).trans (hb1 j hj)

/-- Blob with no hover and no hit point, as built by `createOrbs`. -/
def blobF : Blob := { hovered := false, hitLocal := none }

/-- Blob whose hover flag is raised. -/
def blobH : Blob := { hovered := true, hitLocal := none }

/-- Browse-mode two-blob starting state with nothing hovered. -/
def s0c : NavState :=
  { blobs := [blobF, blobF], hoveredBlob := none, panelOpen := false, focusedIdx := 0 }

/-- Focus-mode two-blob state with the panel open for orb 0. -/
def sFc : NavState :=
  { blobs := [blobF, blobF], hoveredBlob := none, panelOpen := true, focusedIdx := 0 }

/-- C5: in browse mode, starting from a state with no blob hovered, any
sequence of pointer-move events leaves at most one blob hovered at every
instant; and a transition onto a new blob clears the previous blob's
hover flag and hit point while raising the new blob's flag and recording
its hit point. -/
theorem browse_hover_exclusive :
    (∀ (s0 : NavState) (es : List PointerHit),
      s0.panelOpen = false → s0.hoveredBlob = none →
      (∀ (j : ℕ) (b : Blob), s0.blobs[j]? = some b → b.hovered = false) →
      AtMostOneHovered (runPointer s0 es)) ∧
    (∀ (s : NavState) (i j : ℕ) (pt : ℚ × ℚ × ℚ) (b bj : Blob),
      s.panelOpen = false → s.hoveredBlob = some j → j ≠ i →
      s.blobs[i]? = some b → s.blobs[j]? = some bj →
      (onPointerMove s (some (i, pt))).1.blobs[j]? =
        some ({ bj with hovered := false, hitLocal := none }) ∧
      (onPointerMove s (some (i, pt))).1.blobs[i]? =
        some ({ b with hitLocal := some pt, hovered := true }) ∧
      (onPointerMove s (some (i, pt))).1.hoveredBlob = some i) := by
  constructor
  · intro s0 es hp h0 hall
    have hinv0 : HoverInv s0 := by
      intro j b hb
      constructor
      · intro hh
        rw [hall j b hb] at hh
        exact absurd hh (by simp)
      · intro hcc
        rw [h0] at hcc
        exact Option.noConfusion hcc
    have hres := (runPointer_browse_inv es s0 hp hinv0).2
    intro j k bj bk hbj hbk hhj hhk
    have h1 := (hres j bj hbj).mp hhj
    have h2 := (hres k bk hbk).mp hhk
    rw [h1] at h2
    simpa using h2
  · intro s i j pt b bj hp hs hij hb hbj
    have hleni : i < s.blobs.length := (List.getElem?_eq_some_iff.mp hb).1
    have hlenj : j < s.blobs.length := (List.getElem?_eq_some_iff.mp hbj).1
    rw [onPointerMove_transition s i j pt b bj hp hs hij hb hbj]
    refine ⟨?_, ?_, rfl⟩
    · show (((s.blobs.set i _).set j _).set i _)[j]? = _
      rw [List.getElem?_set_ne (Ne.symm hij)]
      exact List.getElem?_set_self (by simpa using hlenj)
    · show (((s.blobs.set i _).set j _).set i _)[i]? = _
      exact List.getElem?_set_self (by simpa using hleni)

/-- C5 (witness): the exclusivity invariant applied to a concrete
two-blob browse run that hovers orb 0 and then transitions to orb 1. -/
theorem browse_hover_exclusive_witness :
    (s0c.panelOpen = false ∧ s0c.hoveredBlob = none ∧
      (∀ (j : ℕ) (b : Blob), s0c.blobs[j]? = some b → b.hovered = false)) ∧
    AtMostOneHovered (runPointer s0c [some (0, (0, 0, 0)), some (1, (0, 0, 0))]) := by
  have hall : ∀ (j : ℕ) (b : Blob), s0c.blobs[j]? = some b → b.hovered = false := by
    intro j b hb
    match j with
    | 0 =>
      have hbe : b = blobF := by simpa [s0c] using hb.symm
      rw [hbe]
      rfl
    | 1 =>
      have hbe : b = blobF := by simpa [s0c] using hb.symm
      rw [hbe]
      rfl
    | n + 2 => simp [s0c] at hb
  exact ⟨⟨rfl, rfl, hall⟩,
    browse_hover_exclusive.1 s0c [some (0, (0, 0, 0)), some (1, (0, 0, 0))] rfl rfl hall⟩

/-- C6: once the panel is open for orb `k`, no sequence of pointer-move
events can change — in particular can ever raise the hover flag of — any
blob other than blob `k`. -/
theorem focus_mode_isolation (s : NavState) (k : ℕ) (es : List PointerHit)
    (j : ℕ) (hp : s.panelOpen = true) (hk : s.focusedIdx = k) (hj : j ≠ k) :
    (runPointer s es).blobs[j]? = s.blobs[j]? ∧
    (∀ bj : Blob, s.blobs[j]? = some bj → bj.hovered = false →
      ∃ bj2 : Blob, (runPointer s es).blobs[j]? = some bj2 ∧ bj2.hovered = false) := by
  subst hk
  obtain ⟨_, _, hb⟩ := runPointer_panel_frozen es s hp
  exact ⟨hb j hj, fun bj hbj hf => ⟨bj, (hb j hj).trans hbj, hf⟩⟩

/-- C6 (witness): focus-mode isolation applied to a concrete state with
the panel open for orb 0 and a synthetic ray hit against orb 1. -/
theorem focus_mode_isolation_witness :
    (sFc.panelOpen = true ∧ sFc.focusedIdx = 0 ∧ (1 : ℕ) ≠ 0) ∧
    ((runPointer sFc [some (1, (0, 0, 0))]).blobs[1]? = sFc.blobs[1]? ∧
      (∀ bj : Blob, sFc.blobs[1]? = some bj → bj.hovered = false →
        ∃ bj2 : Blob, (runPointer sFc [some (1, (0, 0, 0))]).blobs[1]? = some bj2 ∧
          bj2.hovered = false)) :=
  ⟨⟨rfl, rfl, by omega⟩,
    focus_mode_isolation sFc 0 [some (1, (0, 0, 0))] 1 rfl rfl (by omega)⟩

/-- C7: in browse mode the hover cue fires at an event exactly when the
event has a nearest-hit blob different from the currently hovered one;
in particular a second consecutive event hitting the same blob never
fires the cue again. -/
theorem hover_cue_fires_iff (s : NavState) (e : PointerHit)
    (hp : s.panelOpen = false) :
    ((onPointerMove s e).2 = true ↔
      ∃ (i : ℕ) (pt : ℚ × ℚ × ℚ) (b : Blob),
        e = some (i, pt) ∧ s.blobs[i]? = some b ∧ s.hoveredBlob ≠ some i) ∧
    (∀ (i : ℕ) (pt pt2 : ℚ × ℚ × ℚ) (b : Blob), s.blobs[i]? = some b →
      (onPointerMove ((onPointerMove s (some (i, pt))).1) (some (i, pt2))).2 = false) := by
  constructor
  · rcases e with _ | ⟨i, pt⟩
    · have hsnd : (onPointerMove s none).2 = false := by
        cases hj : s.hoveredBlob with
        | none => rw [onPointerMove_miss_none s hp hj]
        | some j =>
          cases hbj : s.blobs[j]? with
          | none => rw [onPointerMove_miss_dangling s j hp hj hbj]
          | some bj => rw [onPointerMove_miss_hovered s j bj hp hj hbj]
      rw [hsnd]
      constructor
      · intro h
        exact absurd h (by simp)
      · rintro ⟨i2, pt2, b2, heq, _, _⟩
        exact Option.noConfusion heq
    · cases hb : s.blobs[i]? with
      | none =>
        rw [onPointerMove_hit_unknown s i pt hp hb]
        constructor
        · intro h
          exact absurd h (by simp)
        · rintro ⟨i2, pt2, b2, heq, hb2, _⟩
          obtain ⟨hi2, -⟩ : i = i2 ∧ pt = pt2 := by simpa using heq
          rw [← hi2] at hb2
          rw [hb] at hb2
          exact Option.noConfusion hb2
      | some b =>
        by_cases hsame : s.hoveredBlob = some i
        · rw [onPointerMove_hit_same s i pt b hp hb hsame]
          constructor
          · intro h
            exact absurd h (by simp)
          · rintro ⟨i2, pt2, b2, heq, hb2, hne⟩
            obtain ⟨hi2, -⟩ : i = i2 ∧ pt = pt2 := by simpa using heq
            rw [← hi2] at hne
            exact absurd hsame hne
        · have hsnd : (onPointerMove s (some (i, pt))).2 = true := by
            cases hj : s.hoveredBlob with
            | none => rw [onPointerMove_hit_fromNone s i pt b hp hb hj]
            | some j =>
              have hij : j ≠ i := fun h2 => hsame (by rw [hj, h2])
              cases hbj : s.blobs[j]? with
              | some bj => rw [onPointerMove_transition s i j pt b bj hp hj hij hb hbj]
              | none => rw [onPointerMove_transition_dangling s i j pt b hp hj hij hb hbj]
          rw [hsnd]
          exact ⟨fun _ => ⟨i, pt, b, rfl, hb, hsame⟩, fun _ => rfl⟩
  · intro i pt pt2 b hb
    have hleni : i < s.blobs.length := (List.getElem?_eq_some_iff.mp hb).1
    by_cases hsame : s.hoveredBlob = some i
    · rw [onPointerMove_hit_same s i pt b hp hb hsame]
      show (onPointerMove
          { s with blobs := s.blobs.set i ({ b with hitLocal := some pt }) }
          (some (i, pt2))).2 = false
      rw [onPointerMove_hit_same
        { s with blobs := s.blobs.set i ({ b with hitLocal := some pt }) }
        i pt2 ({ b with hitLocal := some pt }) hp
        (List.getElem?_set_self hleni) hsame]
    · cases hj : s.hoveredBlob with
      | none =>
        rw [onPointerMove_hit_fromNone s i pt b hp hb hj]
        show (onPointerMove
            { s with
                blobs := (s.blobs.set i ({ b with hitLocal := some pt })).set i
                  ({ b with hitLocal := some pt, hovered := true }),
                hoveredBlob := some i }
            (some (i, pt2))).2 = false
        rw [onPointerMove_hit_same
          { s with
              blobs := (s.blobs.set i ({ b with hitLocal := some pt })).set i
                ({ b with hitLocal := some pt, hovered := true }),
              hoveredBlob := some i }
          i pt2 ({ b with hitLocal := some pt, hovered := true })
          hp (List.getElem?_set_self (by simpa using hleni)) rfl]
      | some j =>
        have hij : j ≠ i := fun h2 => hsame (by rw [hj, h2])
        cases hbj : s.blobs[j]? with
        | some bj =>
          rw [onPointerMove_transition s i j pt b bj hp hj hij hb hbj]
          show (onPointerMove
              { s with
                  blobs := ((s.blobs.set i ({ b with hitLocal := some pt })).set j
                    ({ bj with hovered := false, hitLocal := none })).set i
                    ({ b with hitLocal := some pt, hovered := true }),
                  hoveredBlob := some i }
              (some (i, pt2))).2 = false
          rw [onPointerMove_hit_same
            { s with
                blobs := ((s.blobs.set i ({ b with hitLocal := some pt })).set j
                  ({ bj with hovered := false, hitLocal := none })).set i
                  ({ b with hitLocal := some pt, hovered := true }),
                hoveredBlob := some i }
            i pt2 ({ b with hitLocal := some pt, hovered := true })
            hp (List.getElem?_set_self (by simpa using hleni)) rfl]
        | none =>
          rw [onPointerMove_transition_dangling s i j pt b hp hj hij hb hbj]
          show (onPointerMove
              { s with
                  blobs := (s.blobs.set i ({ b with hitLocal := some pt })).set i
                    ({ b with hitLocal := some pt, hovered := true }),
                  hoveredBlob := some i }
              (some (i, pt2))).2 = false
          rw [onPointerMove_hit_same
            { s with
                blobs := (s.blobs.set i ({ b with hitLocal := some pt })).set i
                  ({ b with hitLocal := some pt, hovered := true }),
                hoveredBlob := some i }
            i pt2 ({ b with hitLocal := some pt, hovered := true })
            hp (List.getElem?_set_self (by simpa using hleni)) rfl]

/-- C7 (witness): the cue characterisation applied to the concrete
two-blob browse state and the event hitting orb 0. -/
theorem hover_cue_fires_iff_witness :
    s0c.panelOpen = false ∧
    (((onPointerMove s0c (some (0, (0, 0, 0)))).2 = true ↔
      ∃ (i : ℕ) (pt : ℚ × ℚ × ℚ) (b : Blob),
        (some (0, (0, 0, 0)) : PointerHit) = some (i, pt) ∧
          s0c.blobs[i]? = some b ∧ s0c.hoveredBlob ≠ some i) ∧
    (∀ (i : ℕ) (pt pt2 : ℚ × ℚ × ℚ) (b : Blob), s0c.blobs[i]? = some b →
      (onPointerMove ((onPointerMove s0c (some (i, pt))).1) (some (i, pt2))).2 = false)) :=
  ⟨rfl, hover_cue_fires_iff s0c (some (0, (0, 0, 0))) rfl⟩

/-- C10: the side-navigation mouseenter handler raises `blobs[idx]`'s
hover flag and plays the hover cue, leaves every other blob (flag and
hit point) untouched, and never clears a previously hovered blob — so a
raycast-hovered blob plus a nav-item hover leave two blobs hovered at
once. -/
theorem navMouseEnter_keeps_other_hover (blobs : List Blob) (idx : ℕ) (b : Blob)
    (hb : blobs[idx]? = some b) :
    navMouseEnter blobs idx = .ok (blobs.set idx ({ b with hovered := true }), true) ∧
    (blobs.set idx ({ b with hovered := true }))[idx]? =
      some ({ b with hovered := true }) ∧
    ({ b with hovered := true }).hovered = true ∧
    ({ b with hovered := true }).hitLocal = b.hitLocal ∧
    (∀ j, j ≠ idx → (blobs.set idx ({ b with hovered := true }))[j]? = blobs[j]?) ∧
    (∀ (j : ℕ) (bj : Blob), j ≠ idx → blobs[j]? = some bj → bj.hovered = true →
      (blobs.set idx ({ b with hovered := true }))[j]? = some bj ∧
      (blobs.set idx ({ b with hovered := true }))[idx]? =
        some ({ b with hovered := true })) := by
  have hlen : idx < blobs.length := (List.getElem?_eq_some_iff.mp hb).1
  refine ⟨?_, List.getElem?_set_self hlen, rfl, rfl,
    fun j hj => List.getElem?_set_ne (fun h2 => hj h2.symm),
    fun j bj hj hbj _ =>
      ⟨(List.getElem?_set_ne (fun h2 => hj h2.symm)).trans hbj,
        List.getElem?_set_self hlen⟩⟩
  unfold navMouseEnter
  rw [hb]

/-- C10 (witness): the handler applied at index 0 of a collection whose
blob 1 is already hovered by the raycast resolver: afterwards both blob 0
and blob 1 are hovered. -/
theorem navMouseEnter_keeps_other_hover_witness :
    ([blobF, blobH] : List Blob)[0]? = some blobF ∧
    (navMouseEnter [blobF, blobH] 0 =
        .ok ([blobF, blobH].set 0 ({ blobF with hovered := true }), true) ∧
      ([blobF, blobH].set 0 ({ blobF with hovered := true }))[0]? =
        some ({ blobF with hovered := true }) ∧
      ({ blobF with hovered := true }).hovered = true ∧
      ({ blobF with hovered := true }).hitLocal = blobF.hitLocal ∧
      (∀ j, j ≠ 0 → ([blobF, blobH].set 0 ({ blobF with hovered := true }))[j]? =
        ([blobF, blobH] : List Blob)[j]?) ∧
      (∀ (j : ℕ) (bj : Blob), j ≠ 0 → ([blobF, blobH] : List Blob)[j]? = some bj →
        bj.hovered = true →
        ([blobF, blobH].set 0 ({ blobF with hovered := true }))[j]? = some bj ∧
        ([blobF, blobH].set 0 ({ blobF with hovered := true }))[0]? =
          some ({ blobF with hovered := true }))) :=
  ⟨rfl, navMouseEnter_keeps_other_hover [blobF, blobH] 0 blobF rfl⟩

/-- C8: the orb label construction evaluates `proj.name.toUpperCase()`
without any guard, so a descriptor with a missing `name` makes
`createOrbs` throw a TypeError instead of degrading to an empty label;
with a present name the upper-cased label text is produced. -/
theorem createOrbs_missing_name_throws :
    createOrbLabelText { name := none } =
      .error "TypeError: Cannot read properties of undefined (reading toUpperCase)" ∧
    (∀ s : String, createOrbLabelText { name := some s } = .ok s.toUpper) :=
  ⟨rfl, fun _ => rfl⟩

end Portfolio
